import Mathlib

/-!
Shallow embedding of the vanilla node-based editor (`NodeEditor` / `Node`)
and proofs about its graph model and execution engine.

Modelling conventions:
* JS object references to nodes are replaced by the node `id` field, which is
  unique in every reachable state (monotone `nodeIdCounter`).
* JS numbers are exact rationals (kept as raw integer fractions so the
  kernel can evaluate them) extended with `NaN` and the two infinities; the
  decimal rendering used by string concatenation is abstracted (no claim
  depends on it), and numeric literals in strings are parsed without
  exponent/hex forms (never produced by this editor).
* DOM/canvas state (positions, drawing, drag offsets) is omitted: it is never
  read by the graph operations under study.
* The output log is a list of abstract entries (timestamps and exact message
  text are irrelevant to the claims; the printed value is kept).
-/

namespace NodeGraph

/-- A finite JS number as a raw integer fraction `n / d` (not necessarily in
lowest terms); every operation keeps `d` nonzero and every literal is
`⟨m, 1⟩`. A raw fraction is used instead of `ℚ` so that concrete runs reduce
inside the kernel (`decide` cannot evaluate `ℚ`'s gcd-normalisation); all
tests on a `JNum` below are semantic (sign and zero tests on `n * d`), so the
representation is never observed by the program semantics. -/
structure JNum where
  n : Int
  d : Int
  deriving DecidableEq

/-- The integer `m` as a JS number. -/
def JNum.ofInt (m : Int) : JNum := ⟨m, 1⟩

def JNum.neg (a : JNum) : JNum := ⟨-a.n, a.d⟩

def JNum.add (a b : JNum) : JNum := ⟨a.n * b.d + b.n * a.d, a.d * b.d⟩

def JNum.sub (a b : JNum) : JNum := ⟨a.n * b.d - b.n * a.d, a.d * b.d⟩

def JNum.mul (a b : JNum) : JNum := ⟨a.n * b.n, a.d * b.d⟩

/-- Exact division; callers guard against a zero divisor. -/
def JNum.div (a b : JNum) : JNum := ⟨a.n * b.d, a.d * b.n⟩

/-- The represented number is 0. -/
def JNum.isZero (a : JNum) : Bool := a.n == 0

/-- The represented number is strictly positive. -/
def JNum.isPos (a : JNum) : Bool := decide (0 < a.n * a.d)

/-- The represented number is nonnegative. -/
def JNum.isNonneg (a : JNum) : Bool := decide (0 ≤ a.n * a.d)

/-- JavaScript runtime values that flow through the graph: finite numbers,
`NaN`, the two infinities, and strings. -/
inductive Value
  | num (q : JNum)
  | nan
  | inf
  | negInf
  | str (s : String)
  deriving DecidableEq

/-- The integer `m` as a JS number value. -/
def Value.int (m : Int) : Value := .num (JNum.ofInt m)

/-- Number-to-string conversion used by JS string concatenation; the exact
JS decimal formatting is abstracted to a deterministic rendering of the
fraction. -/
def JNum.toStr (q : JNum) : String :=
  if q.d = 1 then toString q.n else toString q.n ++ "/" ++ toString q.d

/-- JS `ToString` on our value domain. -/
def Value.toStr : Value → String
  | num q => q.toStr
  | nan => "NaN"
  | inf => "Infinity"
  | negInf => "-Infinity"
  | str s => s

/-- JS truthiness: the number 0, `NaN` and the empty string are falsy
(`undefined` is handled by callers before reaching a `Value`). -/
def jsFalsy : Value → Bool
  | .num q => q.isZero
  | .nan => true
  | .str s => decide (s = "")
  | _ => false

/-- JS `x || 0`. -/
def orZero (v : Value) : Value := if jsFalsy v then Value.int 0 else v

def digitsToNat (ds : List Char) : ℕ :=
  ds.foldl (fun n c => 10 * n + (c.toNat - 48)) 0

/-- Parse a leading unsigned decimal literal (digits with an optional
fraction part); returns the value and the remaining characters, `none` when
no digit is present. -/
def parseDec (cs : List Char) : Option (JNum × List Char) :=
  let ip := cs.takeWhile Char.isDigit
  let r1 := cs.dropWhile Char.isDigit
  let fr :=
    match r1 with
    | '.' :: r => (r.takeWhile Char.isDigit, r.dropWhile Char.isDigit)
    | _ => ([], r1)
  if ip.isEmpty && fr.1.isEmpty then none
  else some (⟨(digitsToNat ip : Int) * (10 : Int) ^ fr.1.length + (digitsToNat fr.1 : Int), (10 : Int) ^ fr.1.length⟩, fr.2)

def stripSign (cs : List Char) : Bool × List Char :=
  match cs with
  | '-' :: r => (true, r)
  | '+' :: r => (false, r)
  | _ => (false, cs)

def isWs (c : Char) : Bool := c = ' ' || c = '\t' || c = '\n' || c = '\r'

/-- Model of JS `parseFloat`: skip leading whitespace, optional sign, then a
leading decimal literal or the literal `Infinity`; `NaN` when nothing
parses. -/
def parseFloatJS (s : String) : Value :=
  let cs := s.data.dropWhile isWs
  let sg := stripSign cs
  if sg.2.take 8 = "Infinity".data then (if sg.1 then .negInf else .inf)
  else
    match parseDec sg.2 with
    | some (q, _) => .num (if sg.1 then q.neg else q)
    | none => .nan

/-- Model of JS `ToNumber` on strings: empty/whitespace is 0, otherwise the
whole trimmed string must be a signed decimal literal or `Infinity`. -/
def toNumberStr (s : String) : Value :=
  let cs := ((s.data.dropWhile isWs).reverse.dropWhile isWs).reverse
  if cs.isEmpty then Value.int 0
  else
    let sg := stripSign cs
    if sg.2 = "Infinity".data then (if sg.1 then .negInf else .inf)
    else
      match parseDec sg.2 with
      | some (q, []) => .num (if sg.1 then q.neg else q)
      | _ => .nan

/-- JS `ToNumber`. -/
def jsToNumber : Value → Value
  | .str s => toNumberStr s
  | v => v

/-- Numeric addition on non-string values (NaN propagates, IEEE sign table
for the infinities; signed zero is not distinguished). -/
def numAdd : Value → Value → Value
  | .num a, .num b => .num (a.add b)
  | .nan, _ => .nan
  | _, .nan => .nan
  | .inf, .negInf => .nan
  | .negInf, .inf => .nan
  | .inf, _ => .inf
  | _, .inf => .inf
  | .negInf, _ => .negInf
  | _, .negInf => .negInf
  | _, _ => .nan

def numSub : Value → Value → Value
  | .num a, .num b => .num (a.sub b)
  | .nan, _ => .nan
  | _, .nan => .nan
  | .inf, .inf => .nan
  | .negInf, .negInf => .nan
  | .inf, _ => .inf
  | .negInf, _ => .negInf
  | _, .inf => .negInf
  | _, .negInf => .inf
  | _, _ => .nan

def numMul : Value → Value → Value
  | .num a, .num b => .num (a.mul b)
  | .nan, _ => .nan
  | _, .nan => .nan
  | .inf, .inf => .inf
  | .inf, .negInf => .negInf
  | .negInf, .inf => .negInf
  | .negInf, .negInf => .inf
  | .inf, .num q => if q.isZero then .nan else if q.isPos then .inf else .negInf
  | .num q, .inf => if q.isZero then .nan else if q.isPos then .inf else .negInf
  | .negInf, .num q => if q.isZero then .nan else if q.isPos then .negInf else .inf
  | .num q, .negInf => if q.isZero then .nan else if q.isPos then .negInf else .inf
  | _, _ => .nan

def numDiv : Value → Value → Value
  | .num a, .num b =>
      if b.isZero then (if a.isZero then .nan else if a.isPos then .inf else .negInf)
      else .num (a.div b)
  | .nan, _ => .nan
  | _, .nan => .nan
  | .inf, .num b => if b.isNonneg then .inf else .negInf
  | .negInf, .num b => if b.isNonneg then .negInf else .inf
  | .num _, .inf => Value.int 0
  | .num _, .negInf => Value.int 0
  | .inf, _ => .nan
  | .negInf, _ => .nan
  | _, _ => .nan

/-- JS `a + b`: string concatenation when either operand is a string,
numeric addition otherwise. -/
def jsAdd : Value → Value → Value
  | .str s, v => .str (s ++ v.toStr)
  | v, .str s => .str (v.toStr ++ s)
  | a, b => numAdd (jsToNumber a) (jsToNumber b)

/-- JS `a - b`. -/
def jsSub (a b : Value) : Value := numSub (jsToNumber a) (jsToNumber b)

/-- JS `a * b`. -/
def jsMul (a b : Value) : Value := numMul (jsToNumber a) (jsToNumber b)

/-- JS `a / b`. -/
def jsDiv (a b : Value) : Value := numDiv (jsToNumber a) (jsToNumber b)

/-- JS strict `b !== 0`: only the number 0 is strictly equal to 0. -/
def strictNeZero (b : Value) : Bool :=
  match b with
  | .num q => !q.isZero
  | _ => true

/-- Log lines appended to the output panel; timestamps and the exact message
text are abstracted to one constructor per call site, keeping the printed
value. -/
inductive LogEntry
  | runStart
  | runEnd
  | inputOccupied
  | printed (v : Value)
  | cleared
  deriving DecidableEq

/-- The per-node `config` bag, restricted to the fields this editor ever
reads; an absent field is `none` (JS `undefined`). -/
structure Config where
  value : Option Value := none
  operation : Option String := none
  valueA : Option Value := none
  valueB : Option Value := none
  deriving DecidableEq

/-- The data part of the `Node` class: id, type string, config, and the
computed `outputValues` array. DOM element and drag offsets are omitted. -/
structure Node where
  id : ℕ
  type : String
  config : Config
  outputValues : List Value := []
  deriving DecidableEq

structure PinInfo where
  name : String
  ty : String
  deriving DecidableEq

structure NodeInfo where
  title : String
  inputs : List PinInfo
  outputs : List PinInfo
  deriving DecidableEq

def numberInfo : NodeInfo :=
  { title := "숫자", inputs := [], outputs := [{ name := "값", ty := "number" }] }

def mathInfo : NodeInfo :=
  { title := "수학 연산",
    inputs := [{ name := "A", ty := "number" }, { name := "B", ty := "number" }],
    outputs := [{ name := "결과", ty := "number" }] }

def stringInfo : NodeInfo :=
  { title := "문자열", inputs := [], outputs := [{ name := "값", ty := "string" }] }

def printInfo : NodeInfo :=
  { title := "출력", inputs := [{ name := "입력", ty := "any" }], outputs := [] }

/-- `Node.getNodeInfo`: the fixed pin-shape table, with unknown type strings
falling back to the `number` shape (`nodeTypes[this.type] || nodeTypes.number`). -/
def Node.getNodeInfo (nd : Node) : NodeInfo :=
  match nd.type with
  | "number" => numberInfo
  | "math" => mathInfo
  | "string" => stringInfo
  | "print" => printInfo
  | _ => numberInfo

/-- `Node.reset`: `this.outputValues = []`. -/
def Node.reset (nd : Node) : Node := { nd with outputValues := [] }

/-- JS `this.outputValues[0] = v` on an array value. -/
def setOutput0 (outs : List Value) (v : Value) : List Value :=
  match outs with
  | [] => [v]
  | _ :: rest => v :: rest

/-- JS `parseFloat(x)` applied to a config field; an absent field stringifies
to "undefined", which parses to `NaN`. -/
def parseFloatValue : Option Value → Value
  | none => .nan
  | some (.num q) => .num q
  | some .nan => .nan
  | some .inf => .inf
  | some .negInf => .negInf
  | some (.str s) => parseFloatJS s

/-- JS read `inputs[i]` on a possibly-sparse array (out-of-range and holes
are both `undefined`). -/
def lookupInput (inputs : List (Option Value)) (i : ℕ) : Option Value :=
  (inputs.get? i).getD none

/-- The math operand resolution
`inputs[i] !== undefined ? inputs[i] : (parseFloat(config.field) || 0)`. -/
def mathOperand (inputs : List (Option Value)) (i : ℕ) (fallback : Option Value) : Value :=
  match lookupInput inputs i with
  | some v => v
  | none => orZero (parseFloatValue fallback)

/-- `this.config.operation || 'add'`. -/
def opOrAdd (o : Option String) : String :=
  match o with
  | none => "add"
  | some s => if s = "" then "add" else s

/-- The inner `switch (operation)` of the math case; `result` starts at 0 and
is untouched when no case matches, and `divide` is guarded by `b !== 0`. -/
def mathResult (op : String) (a b : Value) : Value :=
  match op with
  | "add" => jsAdd a b
  | "subtract" => jsSub a b
  | "multiply" => jsMul a b
  | "divide" => if strictNeZero b then jsDiv a b else Value.int 0
  | _ => Value.int 0

/-- `Node.execute(inputs)`: dispatch on the type string. Returns the updated
node together with the log lines it emits (the `print` case logs through the
editor). A type string outside the switch matches no case and does nothing. -/
def Node.execute (nd : Node) (inputs : List (Option Value)) : Node × List LogEntry :=
  match nd.type with
  | "number" =>
      ({ nd with outputValues := setOutput0 nd.outputValues (orZero (parseFloatValue nd.config.value)) }, [])
  | "math" =>
      let a := mathOperand inputs 0 nd.config.valueA
      let b := mathOperand inputs 1 nd.config.valueB
      ({ nd with outputValues := setOutput0 nd.outputValues (mathResult (opOrAdd nd.config.operation) a b) }, [])
  | "string" =>
      let v :=
        match nd.config.value with
        | some w => if jsFalsy w then .str "Hello" else w
        | none => Value.str "Hello"
      ({ nd with outputValues := setOutput0 nd.outputValues v }, [])
  | "print" =>
      let v :=
        match lookupInput inputs 0 with
        | some w => w
        | none => Value.str "없음"
      (nd, [.printed v])
  | _ => (nd, [])

/-- `Node.getOutput(index)`. -/
def Node.getOutput (nd : Node) (i : ℕ) : Option Value := nd.outputValues.get? i

/-- A connection record; `fromNode`/`toNode` hold the referenced node ids. -/
structure Conn where
  id : ℕ
  fromNode : ℕ
  fromPin : ℕ
  toNode : ℕ
  toPin : ℕ
  deriving DecidableEq

/-- The editor's graph state: the node and connection collections, the two
monotone id counters and the output log. Canvas/drag/selection state is
omitted (never read by the graph operations). -/
structure EditorState where
  nodes : List Node := []
  connections : List Conn := []
  nodeIdCounter : ℕ := 0
  connectionIdCounter : ℕ := 0
  log : List LogEntry := []
  deriving DecidableEq

/-- `NodeEditor.addNode`: fresh id from the counter, node appended. Position
styling is UI-only and omitted. -/
def addNode (s : EditorState) (type : String) (config : Config) : EditorState :=
  { s with
    nodes := s.nodes ++ [{ id := s.nodeIdCounter, type := type, config := config }],
    nodeIdCounter := s.nodeIdCounter + 1 }

/-- The duplicate test of `createConnection`: same from-node/pin/to-node/pin
tuple. -/
def connMatches (fromNode fromPin toNode toPin : ℕ) (c : Conn) : Bool :=
  c.fromNode == fromNode && c.fromPin == fromPin && c.toNode == toNode && c.toPin == toPin

/-- The occupancy test of `createConnection`: the connection targets the given
input pin. -/
def targetsPin (toNode toPin : ℕ) (c : Conn) : Bool :=
  c.toNode == toNode && c.toPin == toPin

/-- `NodeEditor.createConnection`: an identical tuple is rejected silently, an
occupied input pin is rejected with a logged error; otherwise a connection
with a fresh id is appended. -/
def createConnection (s : EditorState) (fromNode fromPin toNode toPin : ℕ) : EditorState :=
  if s.connections.any (connMatches fromNode fromPin toNode toPin) then s
  else
    if s.connections.any (targetsPin toNode toPin) then { s with log := s.log ++ [.inputOccupied] }
    else
      { s with
        connections := s.connections ++
          [{ id := s.connectionIdCounter, fromNode := fromNode, fromPin := fromPin,
             toNode := toNode, toPin := toPin }],
        connectionIdCounter := s.connectionIdCounter + 1 }

/-- `NodeEditor.deleteConnection`. -/
def deleteConnection (s : EditorState) (connectionId : ℕ) : EditorState :=
  { s with connections := s.connections.filter fun c => c.id != connectionId }

/-- `NodeEditor.deleteNode`: no-op when the node is not found; otherwise every
connection touching the node is removed, then the node itself. -/
def deleteNode (s : EditorState) (nodeId : ℕ) : EditorState :=
  match s.nodes.find? (fun nd => nd.id == nodeId) with
  | none => s
  | some nd =>
      { s with
        connections := s.connections.filter fun c => c.fromNode != nd.id && c.toNode != nd.id,
        nodes := s.nodes.filter fun m => m.id != nd.id }

/-- `NodeEditor.clearAll`. -/
def clearAll (s : EditorState) : EditorState :=
  { s with nodes := [], connections := [], log := s.log ++ [.cleared] }

/-- Directions of a pin, derived from the DOM class in the source. -/
inductive PinDir
  | input
  | output
  deriving DecidableEq

/-- A pin reference as assembled by `startConnection`/`endConnection`. -/
structure PinRef where
  node : ℕ
  dir : PinDir
  pinIndex : ℕ
  deriving DecidableEq

/-- The decision core of `NodeEditor.endConnection`: a drag from `start`
released on `target` creates a connection only when the target node exists,
the two nodes are distinct, and the pin directions are opposite; the tuple is
oriented output → input before calling `createConnection`. -/
def endConnection (s : EditorState) (start target : PinRef) : EditorState :=
  if (s.nodes.any fun nd => nd.id == target.node) ∧
      start.node ≠ target.node ∧ start.dir ≠ target.dir then
    let fromN := if start.dir = PinDir.output then start.node else target.node
    let toN := if start.dir = PinDir.output then target.node else start.node
    let fromP := if start.dir = PinDir.output then start.pinIndex else target.pinIndex
    let toP := if start.dir = PinDir.output then target.pinIndex else start.pinIndex
    createConnection s fromN fromP toN toP
  else s

/-- JS sparse-array write `inputs[toPin] = outputValue`, padding holes with
`undefined`. -/
def writeSparse : List (Option Value) → ℕ → Option Value → List (Option Value)
  | [], 0, v => [v]
  | [], n + 1, v => none :: writeSparse [] n v
  | _ :: rest, 0, v => v :: rest
  | x :: rest, n + 1, v => x :: writeSparse rest n v

/-- `conn.fromNode.getOutput(conn.fromPin)`, dereferencing the node id. -/
def getOutputById (nodes : List Node) (nid pin : ℕ) : Option Value :=
  match nodes.find? (fun nd => nd.id == nid) with
  | some nd => nd.getOutput pin
  | none => none

/-- `NodeEditor.getNodeInputs`: build the (sparse) `inputs` array from the
connections targeting the node. -/
def getNodeInputs (nodes : List Node) (conns : List Conn) (nid : ℕ) : List (Option Value) :=
  (conns.filter fun c => c.toNode == nid).foldl
    (fun acc c => writeSparse acc c.toPin (getOutputById nodes c.fromNode c.fromPin)) []

/-- The mutable state threaded through one `executeGraph` run: the evolving
node list, the log lines emitted during the run, the `executed` set, and a
trace of the `node.execute` invocations (node id and the inputs passed). -/
structure ExecSt where
  nodes : List Node
  log : List LogEntry
  visited : List ℕ
  trace : List (ℕ × List (Option Value))
  deriving DecidableEq

/-- One `executeNode(node)` body without the recursion: resolve the inputs,
run `node.execute`, record the invocation, and add the node to `executed`.
(If the id resolves to no node — impossible in reachable states — only the
visited set grows.) The found node object is updated in place; node values
are compared structurally here, which coincides with JS object identity in
every reachable state since ids are unique. -/
def execStep (conns : List Conn) (st : ExecSt) (nid : ℕ) : ExecSt :=
  match st.nodes.find? (fun nd => nd.id == nid) with
  | some nd =>
      let inputs := getNodeInputs st.nodes conns nid
      let r := nd.execute inputs
      { nodes := st.nodes.map fun m => if m = nd then r.1 else m,
        log := st.log ++ r.2,
        visited := nid :: st.visited,
        trace := st.trace ++ [(nid, inputs)] }
  | none => { st with visited := nid :: st.visited }

/-- The recursive `executeNode` of `executeGraph`, with explicit fuel paid
only on first visits; `execBound` fuel is always enough (proved below). -/
def visitN (conns : List Conn) : ℕ → ExecSt → ℕ → ExecSt
  | 0, st, _ => st
  | fuel + 1, st, nid =>
      if nid ∈ st.visited then st
      else
        ((conns.filter fun c => c.fromNode == nid).map (fun c => c.toNode)).foldl
          (visitN conns fuel) (execStep conns st nid)

/-- The final `this.nodes.forEach` seed loop of `executeGraph`. -/
def runSeeds (conns : List Conn) (fuel : ℕ) (st : ExecSt) (seeds : List ℕ) : ExecSt :=
  seeds.foldl (fun st nid => if nid ∈ st.visited then st else visitN conns fuel st nid) st

/-- Every node id the traversal can visit: the seeds plus all connection
targets. -/
def univIds (nodes : List Node) (conns : List Conn) : List ℕ :=
  nodes.map Node.id ++ conns.map Conn.toNode

/-- Sufficient fuel for a run on state `s`. -/
def execBound (s : EditorState) : ℕ :=
  (univIds s.nodes s.connections).toFinset.card + 1

/-- The run state at the start of `executeGraph`, after all nodes are reset;
the run log starts empty and is appended to the editor log at the end. -/
def initSt (s : EditorState) : ExecSt :=
  { nodes := s.nodes.map Node.reset, log := [], visited := [], trace := [] }

/-- One full traversal with the given fuel. -/
def execRun (fuel : ℕ) (s : EditorState) : ExecSt :=
  runSeeds s.connections fuel (initSt s) (s.nodes.map Node.id)

/-- `NodeEditor.executeGraph` with explicit fuel: reset every node, traverse,
and append the run's log lines between the start and end banner lines. -/
def executeGraphFuel (fuel : ℕ) (s : EditorState) : EditorState :=
  { s with
    nodes := (execRun fuel s).nodes,
    log := s.log ++ [.runStart] ++ (execRun fuel s).log ++ [.runEnd] }

/-- `NodeEditor.executeGraph`. -/
def executeGraph (s : EditorState) : EditorState := executeGraphFuel (execBound s) s

/-- The sequence of `node.execute` invocations performed by one
`executeGraph` call (node id and the inputs passed). -/
def executeTrace (s : EditorState) : List (ℕ × List (Option Value)) :=
  (execRun (execBound s) s).trace

/-! ### Generic fold lemmas -/

theorem foldl_pres {α : Type} (P : α → Prop) (f : α → ℕ → α)
    (h : ∀ a n, P a → P (f a n)) : ∀ (l : List ℕ) (a : α), P a → P (l.foldl f a)
  | [], _, ha => ha
  | n :: l, a, ha => foldl_pres P f h l (f a n) (h a n ha)

theorem foldl_rel {α : Type} (R : α → α → Prop)
    (ht : ∀ {a b c : α}, R a b → R b c → R a c) (hr : ∀ a, R a a)
    (f : α → ℕ → α) (h : ∀ a n, R a (f a n)) :
    ∀ (l : List ℕ) (a : α), R a (l.foldl f a)
  | [], a => hr a
  | n :: l, a => ht (h a n) (foldl_rel R ht hr f h l (f a n))

/-! ### C1: fan-in invariant -/

/-- Number of connections targeting the input pin `(t, tp)`. -/
def occupancy (conns : List Conn) (t tp : ℕ) : ℕ :=
  conns.countP (targetsPin t tp)

/-- Every input pin has at most one incoming connection. -/
def FanInOk (conns : List Conn) : Prop := ∀ t tp, occupancy conns t tp ≤ 1

/-- A sequence of `createConnection` calls, each given as
`(fromNode, fromPin, toNode, toPin)`. -/
def applyCreates (s : EditorState) (calls : List (ℕ × ℕ × ℕ × ℕ)) : EditorState :=
  calls.foldl (fun s c => createConnection s c.1 c.2.1 c.2.2.1 c.2.2.2) s

theorem fanInOk_append (conns : List Conn) (c : Conn)
    (h : FanInOk conns) (hz : occupancy conns c.toNode c.toPin = 0) :
    FanInOk (conns ++ [c]) := by
  intro t tp
  have hx := h t tp
  unfold occupancy at hx hz ⊢
  rw [List.countP_append, List.countP_cons, List.countP_nil]
  by_cases hm : (targetsPin t tp c) = true
  · obtain ⟨h1, h2⟩ : c.toNode = t ∧ c.toPin = tp := by simpa [targetsPin] using hm
    rw [h1, h2] at hz
    rw [hz, if_pos hm]
  · rw [if_neg hm]
    omega

theorem fanInOk_createConnection (s : EditorState) (f fp t tp : ℕ)
    (h : FanInOk s.connections) : FanInOk (createConnection s f fp t tp).connections := by
  unfold createConnection
  by_cases hdup : (s.connections.any (connMatches f fp t tp)) = true
  · simpa [hdup] using h
  · by_cases htk : (s.connections.any (targetsPin t tp)) = true
    · simp only [hdup, htk, Bool.false_eq_true, if_false, if_true]
      exact h
    · simp only [hdup, htk, Bool.false_eq_true, if_false]
      apply fanInOk_append s.connections ⟨s.connectionIdCounter, f, fp, t, tp⟩ h
      unfold occupancy
      rw [List.countP_eq_zero]
      intro c hc
      exact List.any_eq_false.mp (Bool.not_eq_true _ ▸ htk) c hc

theorem connections_unchanged_of_occupied (s : EditorState) (f fp t tp : ℕ)
    (h : 0 < occupancy s.connections t tp) :
    (createConnection s f fp t tp).connections = s.connections := by
  unfold createConnection
  by_cases hdup : (s.connections.any (connMatches f fp t tp)) = true
  · simp [hdup]
  · have htk : (s.connections.any (targetsPin t tp)) = true := by
      obtain ⟨c, hc, hp⟩ := List.countP_pos_iff.mp h
      exact List.any_eq_true.mpr ⟨c, hc, hp⟩
    simp [hdup, htk]

/-- C1: for every graph whose connection collection satisfies the fan-in
invariant (in particular any graph reachable from the initial, empty editor),
any sequence of `createConnection` calls preserves the invariant that each
input pin has at most one incoming connection; moreover a call aimed at an
already-occupied input pin leaves the connection collection exactly
unchanged. -/
theorem fanIn_invariant :
    (∀ (s : EditorState) (calls : List (ℕ × ℕ × ℕ × ℕ)),
        FanInOk s.connections → FanInOk (applyCreates s calls).connections) ∧
    (∀ (s : EditorState) (f fp t tp : ℕ), 0 < occupancy s.connections t tp →
        (createConnection s f fp t tp).connections = s.connections) := by
  constructor
  · intro s calls h
    induction calls generalizing s with
    | nil => exact h
    | cons c rest ih =>
        exact ih (createConnection s c.1 c.2.1 c.2.2.1 c.2.2.2)
          (fanInOk_createConnection s c.1 c.2.1 c.2.2.1 c.2.2.2 h)
  · exact connections_unchanged_of_occupied

/-- A one-connection graph whose input pin `(1, 0)` is occupied. -/
def occupiedPinState : EditorState :=
  { connections := [⟨0, 0, 0, 1, 0⟩], connectionIdCounter := 1 }

/-- C1 witness: concretely, three creation calls from the empty editor (the
third aimed at the occupied pin `(1, 0)`) keep that pin's occupancy at one,
and a call onto the occupied pin of a one-connection graph changes nothing. -/
theorem fanIn_invariant_witness :
    occupancy (applyCreates {} [(0, 0, 1, 0), (2, 0, 1, 0), (0, 1, 1, 0)]).connections 1 0 ≤ 1 ∧
    (createConnection occupiedPinState 2 0 1 0).connections = [⟨0, 0, 0, 1, 0⟩] :=
  ⟨(fanIn_invariant.1 {} [(0, 0, 1, 0), (2, 0, 1, 0), (0, 1, 1, 0)]
      (fun t tp => by simp [occupancy])) 1 0,
   fanIn_invariant.2 occupiedPinState 2 0 1 0 (by decide)⟩

/-! ### C2: cascade delete -/

/-- C2: deleting a node that is present in the node collection removes every
connection that references it as either endpoint. -/
theorem deleteNode_cascade (s : EditorState) (nid : ℕ)
    (h : ∃ nd ∈ s.nodes, nd.id = nid) :
    ∀ c ∈ (deleteNode s nid).connections, c.fromNode ≠ nid ∧ c.toNode ≠ nid := by
  obtain ⟨nd0, hmem, hid⟩ := h
  have hsome : (s.nodes.find? (fun m => m.id == nid)).isSome := by
    apply List.find?_isSome.mpr
    exact ⟨nd0, hmem, by simp [hid]⟩
  obtain ⟨m, hm⟩ := Option.isSome_iff_exists.mp hsome
  have hmid : m.id = nid := by
    have := List.find?_some hm
    simpa using this
  intro c hc
  unfold deleteNode at hc
  rw [hm] at hc
  simp only [List.mem_filter] at hc
  have hb := hc.2
  rw [Bool.and_eq_true, bne_iff_ne, bne_iff_ne] at hb
  rw [← hmid]
  exact hb

/-- A two-node graph (number 0 → print 1) with one connection. -/
def twoNodeState : EditorState :=
  { nodes := [{ id := 0, type := "number", config := {} },
              { id := 1, type := "print", config := {} }],
    connections := [⟨0, 0, 0, 1, 0⟩],
    nodeIdCounter := 2, connectionIdCounter := 1, log := [] }

/-- C2 witness: after deleting node 0 from a two-node graph, its old outgoing
connection `0 → 1` is no longer in the collection. -/
theorem deleteNode_cascade_witness :
    ¬ ((⟨0, 0, 0, 1, 0⟩ : Conn) ∈ (deleteNode twoNodeState 0).connections) :=
  fun hmem =>
    (deleteNode_cascade twoNodeState 0
      ⟨{ id := 0, type := "number", config := {} }, by decide, rfl⟩ _ hmem).1 rfl

/-! ### C5: duplicate connection -/

theorem targetsPin_of_connMatches {f fp t tp : ℕ} {c : Conn}
    (h : connMatches f fp t tp c = true) : targetsPin t tp c = true := by
  unfold connMatches at h
  unfold targetsPin
  simp only [Bool.and_eq_true] at h ⊢
  exact ⟨h.1.2, h.2⟩

/-- The three outcomes of one `createConnection` call. -/
theorem createConnection_cases (s : EditorState) (f fp t tp : ℕ) :
    ((s.connections.any (connMatches f fp t tp)) = true ∧ createConnection s f fp t tp = s) ∨
    ((s.connections.any (connMatches f fp t tp)) = false ∧
      (s.connections.any (targetsPin t tp)) = true ∧
      createConnection s f fp t tp = { s with log := s.log ++ [.inputOccupied] }) ∨
    ((s.connections.any (connMatches f fp t tp)) = false ∧
      (s.connections.any (targetsPin t tp)) = false ∧
      createConnection s f fp t tp = ⟨s.nodes, s.connections ++ [⟨s.connectionIdCounter, f, fp, t, tp⟩], s.nodeIdCounter, s.connectionIdCounter + 1, s.log⟩) := by
  unfold createConnection
  by_cases h1 : (s.connections.any (connMatches f fp t tp)) = true
  · left
    exact ⟨h1, by simp [h1]⟩
  · by_cases h2 : (s.connections.any (targetsPin t tp)) = true
    · right; left
      exact ⟨by simpa using h1, h2, by simp [h1, h2]⟩
    · right; right
      exact ⟨by simpa using h1, by simpa using h2, by simp [h1, h2]⟩

theorem createConnection_of_dup (s : EditorState) (f fp t tp : ℕ)
    (h : s.connections.any (connMatches f fp t tp) = true) :
    createConnection s f fp t tp = s := by
  unfold createConnection
  simp [h]

theorem createConnection_connections_of_taken (s : EditorState) (f fp t tp : ℕ)
    (h2 : s.connections.any (targetsPin t tp) = true) :
    (createConnection s f fp t tp).connections = s.connections := by
  unfold createConnection
  by_cases h1 : s.connections.any (connMatches f fp t tp) = true
  · simp [h1]
  · simp [h1, h2]

theorem createConnection_second_noop (s : EditorState) (f fp t tp : ℕ) :
    (createConnection (createConnection s f fp t tp) f fp t tp).connections =
      (createConnection s f fp t tp).connections := by
  rcases createConnection_cases s f fp t tp with ⟨h1, he⟩ | ⟨h1, h2, he⟩ | ⟨h1, h2, he⟩
  · rw [he, createConnection_of_dup s f fp t tp h1]
  · have hc : (createConnection s f fp t tp).connections = s.connections := by rw [he]
    exact createConnection_connections_of_taken _ f fp t tp (by rw [hc]; exact h2)
  · have hdup2 : (createConnection s f fp t tp).connections.any (connMatches f fp t tp) = true := by
      rw [he]
      apply List.any_eq_true.mpr
      exact ⟨⟨s.connectionIdCounter, f, fp, t, tp⟩, by simp, by simp [connMatches]⟩
    rw [createConnection_of_dup _ f fp t tp hdup2]

theorem createConnection_fresh (s : EditorState) (f fp t tp : ℕ)
    (h : occupancy s.connections t tp = 0) :
    createConnection (createConnection s f fp t tp) f fp t tp = createConnection s f fp t tp ∧
    (createConnection s f fp t tp).connections.countP (connMatches f fp t tp) = 1 := by
  unfold occupancy at h
  have h2 : s.connections.any (targetsPin t tp) = false := by
    rw [List.any_eq_false]
    exact List.countP_eq_zero.mp h
  have h1 : s.connections.any (connMatches f fp t tp) = false := by
    rw [List.any_eq_false]
    intro c hc hcm
    exact (List.any_eq_false.mp h2 c hc) (targetsPin_of_connMatches hcm)
  rcases createConnection_cases s f fp t tp with ⟨hx, _⟩ | ⟨_, hx, _⟩ | ⟨_, _, he⟩
  · rw [h1] at hx
    cases hx
  · rw [h2] at hx
    cases hx
  · constructor
    · apply createConnection_of_dup
      rw [he]
      refine List.any_eq_true.mpr ⟨⟨s.connectionIdCounter, f, fp, t, tp⟩, ?_, ?_⟩
      · simp
      · simp [connMatches]
    · rw [he]
      show (s.connections ++ [(⟨s.connectionIdCounter, f, fp, t, tp⟩ : Conn)]).countP (connMatches f fp t tp) = 1
      rw [List.countP_append, List.countP_cons, List.countP_nil]
      have hz : s.connections.countP (connMatches f fp t tp) = 0 := by
        rw [List.countP_eq_zero]
        exact List.any_eq_false.mp h1
      simp [hz, connMatches]

/-- C5 counterexample: on a graph (reachable from the empty editor) whose
input pin `(1, 0)` is already occupied by a different connection, calling
`createConnection` twice with the identical tuple `(2, 0, 1, 0)` leaves zero
— not exactly one — connections with that tuple in the collection. -/
theorem duplicate_connection_cex :
    ¬ ((createConnection (createConnection occupiedPinState 2 0 1 0) 2 0 1 0).connections.countP
        (connMatches 2 0 1 0) = 1) := by decide

/-- C5 amended: the second identical call never changes the connection
collection; and when the target input pin is initially unoccupied, the second
call is a full no-op and exactly one connection with the tuple exists. -/
theorem duplicate_connection_noop :
    (∀ (s : EditorState) (f fp t tp : ℕ),
        (createConnection (createConnection s f fp t tp) f fp t tp).connections =
          (createConnection s f fp t tp).connections) ∧
    (∀ (s : EditorState) (f fp t tp : ℕ), occupancy s.connections t tp = 0 →
        createConnection (createConnection s f fp t tp) f fp t tp = createConnection s f fp t tp ∧
        (createConnection s f fp t tp).connections.countP (connMatches f fp t tp) = 1) :=
  ⟨createConnection_second_noop, createConnection_fresh⟩

/-- C5 witness: from the empty editor, creating `(0,0,1,0)` twice leaves the
state of the first call unchanged and exactly one matching connection. -/
theorem duplicate_connection_noop_witness :
    createConnection (createConnection {} 0 0 1 0) 0 0 1 0 = createConnection {} 0 0 1 0 ∧
    (createConnection {} 0 0 1 0).connections.countP (connMatches 0 0 1 0) = 1 :=
  duplicate_connection_noop.2 {} 0 0 1 0 (by decide)

/-! ### C8: self-loops -/

/-- No connection loops back onto its own node. -/
def NoSelfLoop (conns : List Conn) : Prop := ∀ c ∈ conns, c.fromNode ≠ c.toNode

/-- A one-math-node graph. -/
def oneMathState : EditorState :=
  { nodes := [⟨1, "math", ⟨none, some "add", none, none⟩, []⟩], nodeIdCounter := 2 }

/-- C8 counterexample: `createConnection` itself performs no self-loop check:
from a reachable one-node graph, a direct call wiring the math node's output
pin 0 to its own input pin 1 succeeds, leaving a connection whose two
endpoints are the same node in the collection. -/
theorem self_loop_cex :
    ∃ c ∈ (createConnection oneMathState 1 0 1 1).connections, c.fromNode = c.toNode := by
  decide

theorem noSelfLoop_createConnection (s : EditorState) (f fp t tp : ℕ)
    (hft : f ≠ t) (h : NoSelfLoop s.connections) :
    NoSelfLoop (createConnection s f fp t tp).connections := by
  rcases createConnection_cases s f fp t tp with ⟨_, he⟩ | ⟨_, _, he⟩ | ⟨_, _, he⟩
  · rw [he]
    exact h
  · rw [he]
    exact h
  · rw [he]
    intro c hc
    rcases List.mem_append.mp hc with hc1 | hc2
    · exact h c hc1
    · have hce : c = ⟨s.connectionIdCounter, f, fp, t, tp⟩ := by simpa using hc2
      rw [hce]
      exact hft

theorem noSelfLoop_endConnection (s : EditorState) (a b : PinRef)
    (h : NoSelfLoop s.connections) : NoSelfLoop (endConnection s a b).connections := by
  unfold endConnection
  split
  case isTrue hcond =>
    obtain ⟨-, hne, -⟩ := hcond
    by_cases hd : a.dir = PinDir.output
    · simp only [hd, if_true]
      exact noSelfLoop_createConnection _ _ _ _ _ hne h
    · simp only [if_neg hd]
      exact noSelfLoop_createConnection _ _ _ _ _ (Ne.symm hne) h
  case isFalse => exact h

/-- A sequence of UI drags, each `(start, target)` handed to `endConnection`. -/
def applyDrags (s : EditorState) (drags : List (PinRef × PinRef)) : EditorState :=
  drags.foldl (fun s d => endConnection s d.1 d.2) s

/-- C8 amended: the self-loop check lives in the UI boundary `endConnection`,
not in `createConnection`: every graph whose connections have distinct
endpoints keeps that property under any sequence of `endConnection` drags
(`createConnection` called directly does not check, per the counterexample). -/
theorem no_self_loop_endConnection_seq :
    ∀ (s : EditorState) (drags : List (PinRef × PinRef)), NoSelfLoop s.connections →
      NoSelfLoop (applyDrags s drags).connections := by
  intro s drags
  induction drags generalizing s with
  | nil => exact id
  | cons d rest ih => exact fun h => ih _ (noSelfLoop_endConnection s d.1 d.2 h)

/-- A two-node graph with no connections, ready for a drag. -/
def dragState : EditorState :=
  { nodes := [⟨0, "number", ⟨some (Value.int 1), none, none, none⟩, []⟩, ⟨1, "print", ⟨none, none, none, none⟩, []⟩], nodeIdCounter := 2 }

/-- C8 witness: a drag from node 0's output pin onto node 1's input pin keeps
the no-self-loop property. -/
theorem no_self_loop_endConnection_seq_witness :
    NoSelfLoop (applyDrags dragState [(⟨0, PinDir.output, 0⟩, ⟨1, PinDir.input, 0⟩)]).connections :=
  no_self_loop_endConnection_seq dragState [(⟨0, PinDir.output, 0⟩, ⟨1, PinDir.input, 0⟩)]
    (fun c hc => absurd hc (List.not_mem_nil c))

/-! ### C9: unknown node types -/

/-- A node with a type string outside the closed set. -/
def customNode : Node := ⟨0, "custom", ⟨some (Value.int 5), none, none, none⟩, []⟩

/-- The same node with the default `number` type. -/
def numberNode : Node := ⟨0, "number", ⟨some (Value.int 5), none, none, none⟩, []⟩

/-- C9 counterexample: a node with unknown type `"custom"` and `value = 5`
does not behave per the `number`-type compute policy: `execute` matches no
switch case and produces no output, where the number policy would output 5. -/
theorem unknown_type_cex :
    (customNode.execute []).1.outputValues = [] ∧
    (numberNode.execute []).1.outputValues = [Value.int 5] ∧
    ¬ ((customNode.execute []).1.outputValues = (numberNode.execute []).1.outputValues) := by
  decide

/-- C9 amended: constructing a node with an unknown type string does not
fail: the pin-shape lookup `getNodeInfo` falls back to the `number` shape,
and `execute` is total but a no-op (no output written, no log emitted, node
unchanged) rather than applying the `number` compute policy. -/
theorem unknown_type_fallback (nd : Node) (inputs : List (Option Value))
    (h1 : nd.type ≠ "number") (h2 : nd.type ≠ "math") (h3 : nd.type ≠ "string")
    (h4 : nd.type ≠ "print") :
    nd.getNodeInfo = numberInfo ∧ nd.execute inputs = (nd, []) := by
  constructor
  · unfold Node.getNodeInfo
    split
    all_goals first | rfl | (exfalso; simp_all)
  · unfold Node.execute
    split
    all_goals first | rfl | (exfalso; simp_all)

/-- C9 witness: the `"custom"` node gets the number pin shape and an
unchanged state from `execute`. -/
theorem unknown_type_fallback_witness :
    customNode.getNodeInfo = numberInfo ∧ customNode.execute [] = (customNode, []) :=
  unknown_type_fallback customNode [] (by decide) (by decide) (by decide) (by decide)

/-! ### C3: math compute semantics -/

/-- One disconnected math node with `valueA = 3`, `valueB = 4`, `operation = add`. -/
def mathAddState : EditorState :=
  { nodes := [⟨0, "math", ⟨none, some "add", some (Value.int 3), some (Value.int 4)⟩, []⟩], nodeIdCounter := 1 }

/-- One disconnected math node with `valueA = 3`, `valueB = 0`, `operation = divide`. -/
def mathDivZeroState : EditorState :=
  { nodes := [⟨0, "math", ⟨none, some "divide", some (Value.int 3), some (Value.int 0)⟩, []⟩], nodeIdCounter := 1 }

/-- The math branch of `Node.execute`, as one equation. -/
theorem execute_math (nd : Node) (inputs : List (Option Value)) (hty : nd.type = "math") :
    nd.execute inputs = ({ nd with outputValues := setOutput0 nd.outputValues (mathResult (opOrAdd nd.config.operation) (mathOperand inputs 0 nd.config.valueA) (mathOperand inputs 1 nd.config.valueB)) }, []) := by
  unfold Node.execute
  rw [hty]
  rfl

/-- C3: a math node reads `inputs[0]`/`inputs[1]` and substitutes its own
`valueA`/`valueB` config (coerced, default 0) for undefined inputs: with no
incoming connections, `valueA=3, valueB=4, add` runs to output 7 and
`valueB=0, divide` runs to output exactly 0; in general, whenever the
operation is `divide` and the resolved divisor is the number 0, the output
written is exactly the number 0 (no exception, `NaN`, or `Infinity`). -/
theorem math_compute_semantics :
    ((executeGraph mathAddState).nodes.map Node.outputValues = [[Value.int 7]]) ∧
    ((executeGraph mathDivZeroState).nodes.map Node.outputValues = [[Value.int 0]]) ∧
    (∀ (nd : Node) (inputs : List (Option Value)), nd.type = "math" →
        opOrAdd nd.config.operation = "divide" →
        mathOperand inputs 1 nd.config.valueB = Value.int 0 →
        (nd.execute inputs).1.outputValues = setOutput0 nd.outputValues (Value.int 0)) := by
  refine ⟨by decide, by decide, ?_⟩
  intro nd inputs hty hop hb
  rw [execute_math nd inputs hty]
  show setOutput0 nd.outputValues (mathResult (opOrAdd nd.config.operation) (mathOperand inputs 0 nd.config.valueA) (mathOperand inputs 1 nd.config.valueB)) = _
  rw [hop, hb]
  rfl

/-- A disconnected divide node whose `valueB` is 0. -/
def divNode : Node := ⟨0, "math", ⟨none, some "divide", none, some (Value.int 0)⟩, []⟩

/-- C3 witness: the divide-by-zero policy at a concrete node. -/
theorem math_compute_semantics_witness :
    (divNode.execute []).1.outputValues = [Value.int 0] :=
  math_compute_semantics.2.2 divNode [] rfl (by decide) (by decide)

/-! ### C6: unordered-execution hazard -/

/-- The hazard graph: the downstream math consumer (id 1) precedes its number
producer (id 0) in insertion order, with the single connection
`0.out0 → 1.in0`. -/
def hazardState : EditorState :=
  { nodes := [⟨1, "math", ⟨none, some "multiply", none, some (Value.int 5)⟩, []⟩, ⟨0, "number", ⟨some (Value.int 10), none, none, none⟩, []⟩],
    connections := [⟨0, 0, 0, 1, 0⟩],
    nodeIdCounter := 2, connectionIdCounter := 1, log := [] }

/-- C6: there is a graph in which a downstream consumer precedes its upstream
producer in insertion order, no other path visits the producer first, and one
`executeGraph` run computes the consumer with `undefined` for its connected
input pin 0: the consumer (node 1) is executed first with inputs `[none]`,
and only afterwards the producer (node 0). -/
theorem unordered_execution_hazard :
    hazardState.nodes.map Node.id = [1, 0] ∧
    (∃ c ∈ hazardState.connections, c.fromNode = 0 ∧ c.fromPin = 0 ∧ c.toNode = 1 ∧ c.toPin = 0) ∧
    executeTrace hazardState = [(1, [none]), (0, [])] ∧
    (∃ e ∈ executeTrace hazardState, e.1 = 1 ∧ lookupInput e.2 0 = none) := by
  decide

/-! ### Unfolding and monotonicity lemmas for the traversal -/

theorem visitN_mem (conns : List Conn) (fuel : ℕ) (st : ExecSt) (nid : ℕ)
    (hv : nid ∈ st.visited) : visitN conns fuel st nid = st := by
  cases fuel with
  | zero => rfl
  | succ fuel => simp [visitN, hv]

theorem visitN_succ_not_mem (conns : List Conn) (fuel : ℕ) (st : ExecSt) (nid : ℕ)
    (hv : nid ∉ st.visited) :
    visitN conns (fuel + 1) st nid =
      ((conns.filter fun c => c.fromNode == nid).map (fun c => c.toNode)).foldl
        (visitN conns fuel) (execStep conns st nid) := by
  simp [visitN, hv]

theorem execStep_visited (conns : List Conn) (st : ExecSt) (nid : ℕ) :
    (execStep conns st nid).visited = nid :: st.visited := by
  unfold execStep
  split <;> rfl

theorem visitN_visited_sub (conns : List Conn) :
    ∀ (fuel : ℕ) (st : ExecSt) (nid : ℕ), st.visited ⊆ (visitN conns fuel st nid).visited := by
  intro fuel
  induction fuel with
  | zero => exact fun st nid x hx => hx
  | succ fuel ih =>
      intro st nid
      by_cases hv : nid ∈ st.visited
      · rw [visitN_mem conns _ st nid hv]
        exact fun x hx => hx
      · rw [visitN_succ_not_mem conns fuel st nid hv]
        have h0 : st.visited ⊆ (execStep conns st nid).visited := by
          rw [execStep_visited]
          exact fun x hx => List.mem_cons_of_mem _ hx
        exact h0.trans (foldl_rel (fun a b => a.visited ⊆ b.visited)
          (fun hab hbc => hab.trans hbc) (fun a x hx => hx) (visitN conns fuel) ih _ _)

/-- Ids of `U` not yet visited: the termination measure of the traversal. -/
def unvisitedCard (U : Finset ℕ) (st : ExecSt) : ℕ := (U \ st.visited.toFinset).card

theorem unvisitedCard_le_of_sub (U : Finset ℕ) {v w : List ℕ} (h : v ⊆ w) :
    (U \ w.toFinset).card ≤ (U \ v.toFinset).card := by
  apply Finset.card_le_card
  intro x hx
  rw [Finset.mem_sdiff] at hx ⊢
  refine ⟨hx.1, fun hm => hx.2 ?_⟩
  rw [List.mem_toFinset] at hm ⊢
  exact h hm

theorem unvisitedCard_visitN (conns : List Conn) (U : Finset ℕ) (fuel : ℕ)
    (st : ExecSt) (nid : ℕ) :
    unvisitedCard U (visitN conns fuel st nid) ≤ unvisitedCard U st :=
  unvisitedCard_le_of_sub U (visitN_visited_sub conns fuel st nid)

theorem unvisitedCard_execStep (conns : List Conn) (U : Finset ℕ) (st : ExecSt) (nid : ℕ)
    (hn : nid ∈ U) (hv : nid ∉ st.visited) :
    unvisitedCard U (execStep conns st nid) < unvisitedCard U st := by
  unfold unvisitedCard
  rw [execStep_visited]
  have hsub : U \ (nid :: st.visited).toFinset ⊆ U \ st.visited.toFinset := by
    intro x hx
    rw [Finset.mem_sdiff] at hx ⊢
    refine ⟨hx.1, fun hm => hx.2 ?_⟩
    rw [List.mem_toFinset] at hm ⊢
    exact List.mem_cons_of_mem _ hm
  apply Finset.card_lt_card
  rw [Finset.ssubset_iff_of_subset hsub]
  refine ⟨nid, ?_, ?_⟩
  · rw [Finset.mem_sdiff, List.mem_toFinset]
    exact ⟨hn, hv⟩
  · simp [Finset.mem_sdiff, List.mem_toFinset]

theorem targets_mem_univ (conns : List Conn) (U : Finset ℕ)
    (hU : ∀ c ∈ conns, c.toNode ∈ U) (nid : ℕ) :
    ∀ t ∈ (conns.filter fun c => c.fromNode == nid).map (fun c => c.toNode), t ∈ U := by
  intro t ht
  rw [List.mem_map] at ht
  obtain ⟨c, hc, rfl⟩ := ht
  exact hU c (List.mem_filter.mp hc).1

/-! ### C4: termination and at-most-once execution -/

theorem foldTargets_fuel (conns : List Conn) (U : Finset ℕ) (fuel : ℕ)
    (ih : ∀ (st : ExecSt) (nid : ℕ), nid ∈ U → unvisitedCard U st ≤ fuel →
        visitN conns (fuel + 1) st nid = visitN conns fuel st nid) :
    ∀ (tg : List ℕ) (st : ExecSt), (∀ t ∈ tg, t ∈ U) → unvisitedCard U st ≤ fuel →
      tg.foldl (visitN conns (fuel + 1)) st = tg.foldl (visitN conns fuel) st
  | [], _, _, _ => rfl
  | t :: tg, st, htg, hc => by
      rw [List.foldl_cons, List.foldl_cons, ih st t (htg t (List.mem_cons_self t tg)) hc]
      exact foldTargets_fuel conns U fuel ih tg (visitN conns fuel st t)
        (fun x hx => htg x (List.mem_cons_of_mem t hx))
        (le_trans (unvisitedCard_visitN conns U fuel st t) hc)

theorem visitN_fuel_succ (conns : List Conn) (U : Finset ℕ)
    (hU : ∀ c ∈ conns, c.toNode ∈ U) :
    ∀ (fuel : ℕ) (st : ExecSt) (nid : ℕ), nid ∈ U → unvisitedCard U st ≤ fuel →
      visitN conns (fuel + 1) st nid = visitN conns fuel st nid := by
  intro fuel
  induction fuel with
  | zero =>
      intro st nid hn hc
      have hv : nid ∈ st.visited := by
        by_contra hnv
        have hmem : nid ∈ U \ st.visited.toFinset := by
          rw [Finset.mem_sdiff, List.mem_toFinset]
          exact ⟨hn, hnv⟩
        have hpos : 0 < unvisitedCard U st := Finset.card_pos.mpr ⟨nid, hmem⟩
        omega
      rw [visitN_mem conns 1 st nid hv, visitN_mem conns 0 st nid hv]
  | succ fuel ih =>
      intro st nid hn hc
      by_cases hv : nid ∈ st.visited
      · rw [visitN_mem conns _ st nid hv, visitN_mem conns _ st nid hv]
      · rw [visitN_succ_not_mem conns (fuel + 1) st nid hv,
          visitN_succ_not_mem conns fuel st nid hv]
        apply foldTargets_fuel conns U fuel ih _ _ (targets_mem_univ conns U hU nid)
        have hlt := unvisitedCard_execStep conns U st nid hn hv
        omega

theorem runSeeds_fuel (conns : List Conn) (U : Finset ℕ)
    (hU : ∀ c ∈ conns, c.toNode ∈ U) (fuel : ℕ) :
    ∀ (seeds : List ℕ) (st : ExecSt), (∀ t ∈ seeds, t ∈ U) → unvisitedCard U st ≤ fuel →
      runSeeds conns (fuel + 1) st seeds = runSeeds conns fuel st seeds
  | [], _, _, _ => rfl
  | t :: seeds, st, hsd, hc => by
      unfold runSeeds
      rw [List.foldl_cons, List.foldl_cons]
      by_cases hv : t ∈ st.visited
      · rw [if_pos hv, if_pos hv]
        exact runSeeds_fuel conns U hU fuel seeds st
          (fun x hx => hsd x (List.mem_cons_of_mem t hx)) hc
      · rw [if_neg hv, if_neg hv,
          visitN_fuel_succ conns U hU fuel st t (hsd t (List.mem_cons_self t seeds)) hc]
        exact runSeeds_fuel conns U hU fuel seeds (visitN conns fuel st t)
          (fun x hx => hsd x (List.mem_cons_of_mem t hx))
          (le_trans (unvisitedCard_visitN conns U fuel st t) hc)

theorem executeGraphFuel_stable (s : EditorState) (k : ℕ) :
    executeGraphFuel (execBound s + k) s = executeGraphFuel (execBound s) s := by
  induction k with
  | zero => rfl
  | succ k ih =>
      rw [← ih]
      have hrun : execRun (execBound s + k + 1) s = execRun (execBound s + k) s := by
        unfold execRun
        apply runSeeds_fuel s.connections (univIds s.nodes s.connections).toFinset ?_
          (execBound s + k) (s.nodes.map Node.id) (initSt s) ?_ ?_
        · intro c hc
          rw [List.mem_toFinset]
          unfold univIds
          exact List.mem_append.mpr (Or.inr (List.mem_map_of_mem _ hc))
        · intro x hx
          rw [List.mem_toFinset]
          unfold univIds
          exact List.mem_append.mpr (Or.inl hx)
        · unfold unvisitedCard initSt
          simp only [List.toFinset_nil, Finset.sdiff_empty]
          unfold execBound
          omega
      show executeGraphFuel (execBound s + k + 1) s = executeGraphFuel (execBound s + k) s
      unfold executeGraphFuel
      rw [hrun]

theorem executeGraphFuel_of_le (s : EditorState) (fuel : ℕ) (h : execBound s ≤ fuel) :
    executeGraphFuel fuel s = executeGraph s := by
  have hf : fuel = execBound s + (fuel - execBound s) := by omega
  rw [hf, executeGraphFuel_stable s (fuel - execBound s)]
  rfl

/-- Per-run invariant: the trace never executes a node twice, and every
traced node is in the visited set. -/
def TraceOk (st : ExecSt) : Prop :=
  (st.trace.map Prod.fst).Nodup ∧ ∀ x ∈ st.trace.map Prod.fst, x ∈ st.visited

theorem execStep_traceOk (conns : List Conn) (st : ExecSt) (nid : ℕ)
    (hv : nid ∉ st.visited) (h : TraceOk st) : TraceOk (execStep conns st nid) := by
  obtain ⟨hnd, hsub⟩ := h
  unfold execStep
  split
  · constructor
    · show ((st.trace ++ [(nid, _)]).map Prod.fst).Nodup
      rw [List.map_append, List.nodup_append]
      refine ⟨hnd, List.nodup_singleton nid, ?_⟩
      intro x hx hx1
      rw [List.map_singleton, List.mem_singleton] at hx1
      subst hx1
      exact hv (hsub x hx)
    · intro x hx
      rw [List.map_append] at hx
      rcases List.mem_append.mp hx with h1 | h1
      · exact List.mem_cons_of_mem _ (hsub x h1)
      · rw [List.map_singleton, List.mem_singleton] at h1
        subst h1
        exact List.mem_cons_self _ _
  · exact ⟨hnd, fun x hx => List.mem_cons_of_mem _ (hsub x hx)⟩

theorem visitN_traceOk (conns : List Conn) :
    ∀ (fuel : ℕ) (st : ExecSt) (nid : ℕ), TraceOk st → TraceOk (visitN conns fuel st nid) := by
  intro fuel
  induction fuel with
  | zero => exact fun st nid h => h
  | succ fuel ih =>
      intro st nid h
      by_cases hv : nid ∈ st.visited
      · rw [visitN_mem conns _ st nid hv]
        exact h
      · rw [visitN_succ_not_mem conns fuel st nid hv]
        exact foldl_pres TraceOk (visitN conns fuel) ih _ _ (execStep_traceOk conns st nid hv h)

theorem runSeeds_traceOk (conns : List Conn) (fuel : ℕ) (seeds : List ℕ) (st : ExecSt)
    (h : TraceOk st) : TraceOk (runSeeds conns fuel st seeds) := by
  refine foldl_pres TraceOk _ ?_ seeds st h
  intro a n ha
  by_cases hv : n ∈ a.visited
  · rw [if_pos hv]
    exact ha
  · rw [if_neg hv]
    exact visitN_traceOk conns fuel a n ha

theorem executeTrace_nodup (s : EditorState) : ((executeTrace s).map Prod.fst).Nodup :=
  (runSeeds_traceOk s.connections (execBound s) (s.nodes.map Node.id) (initSt s)
    ⟨List.nodup_nil, fun x hx => absurd hx (List.not_mem_nil x)⟩).1

/-- C4: one `executeGraph` call terminates — the fuel-indexed recursion
stabilises at `execBound`, so any sufficient fuel computes the same run — and
within a single call each node's `Node.execute` is invoked at most once, even
when the connection relation contains cycles, because the visited set grows
monotonically and is checked before any recursive work: the run's trace of
invocations never repeats a node id. -/
theorem executeGraph_terminates_once :
    (∀ (s : EditorState) (fuel : ℕ), execBound s ≤ fuel →
        executeGraphFuel fuel s = executeGraph s) ∧
    (∀ (s : EditorState), ((executeTrace s).map Prod.fst).Nodup) :=
  ⟨executeGraphFuel_of_le, executeTrace_nodup⟩

/-- C4 witness: on the hazard graph (whose cycle-free bound is 3), fuel 10
already computes the fixed run, and the trace executes each node at most
once. -/
theorem executeGraph_terminates_once_witness :
    executeGraphFuel 10 hazardState = executeGraph hazardState ∧
    ((executeTrace hazardState).map Prod.fst).Nodup :=
  ⟨executeGraph_terminates_once.1 hazardState 10 (by decide),
   executeGraph_terminates_once.2 hazardState⟩

/-! ### C10: frame effect of execution, and C7: idempotence -/

/-- Everything of a node except its `outputValues`. -/
def nodeCore (nd : Node) : ℕ × String × Config := (nd.id, nd.type, nd.config)

theorem execute_nodeCore (nd : Node) (inputs : List (Option Value)) :
    nodeCore (nd.execute inputs).1 = nodeCore nd := by
  unfold Node.execute
  split <;> rfl

theorem execStep_nodeCore (conns : List Conn) (st : ExecSt) (nid : ℕ) :
    (execStep conns st nid).nodes.map nodeCore = st.nodes.map nodeCore := by
  unfold execStep
  split
  · rename_i nd hfind
    show (st.nodes.map fun m => if m = nd then (nd.execute (getNodeInputs st.nodes conns nid)).1 else m).map nodeCore = _
    rw [List.map_map]
    apply List.map_congr_left
    intro m _
    by_cases hm : m = nd
    · subst hm
      show nodeCore (if m = m then (m.execute (getNodeInputs st.nodes conns nid)).1 else m) = nodeCore m
      rw [if_pos rfl]
      exact execute_nodeCore m _
    · show nodeCore (if m = nd then (nd.execute (getNodeInputs st.nodes conns nid)).1 else m) = nodeCore m
      rw [if_neg hm]
  · rfl

theorem visitN_nodeCore (conns : List Conn) :
    ∀ (fuel : ℕ) (st : ExecSt) (nid : ℕ),
      (visitN conns fuel st nid).nodes.map nodeCore = st.nodes.map nodeCore := by
  intro fuel
  induction fuel with
  | zero => exact fun st nid => rfl
  | succ fuel ih =>
      intro st nid
      by_cases hv : nid ∈ st.visited
      · rw [visitN_mem conns _ st nid hv]
      · rw [visitN_succ_not_mem conns fuel st nid hv]
        have hfold := foldl_rel (fun a b => b.nodes.map nodeCore = a.nodes.map nodeCore)
          (fun {a b c} hab hbc => by exact hbc.trans hab) (fun a => rfl) (visitN conns fuel) ih
          ((conns.filter fun c => c.fromNode == nid).map (fun c => c.toNode))
          (execStep conns st nid)
        rw [hfold, execStep_nodeCore]

theorem runSeeds_nodeCore (conns : List Conn) (fuel : ℕ) (seeds : List ℕ) (st : ExecSt) :
    (runSeeds conns fuel st seeds).nodes.map nodeCore = st.nodes.map nodeCore := by
  refine foldl_rel (fun a b => b.nodes.map nodeCore = a.nodes.map nodeCore)
    (fun {a b c} hab hbc => by exact hbc.trans hab) (fun a => rfl) _ ?_ seeds st
  intro a n
  by_cases hv : n ∈ a.visited
  · rw [if_pos hv]
  · rw [if_neg hv]
    exact visitN_nodeCore conns fuel a n

theorem executeGraph_nodeCore (s : EditorState) :
    (executeGraph s).nodes.map nodeCore = s.nodes.map nodeCore := by
  show (execRun (execBound s) s).nodes.map nodeCore = _
  unfold execRun
  rw [runSeeds_nodeCore]
  show (s.nodes.map Node.reset).map nodeCore = s.nodes.map nodeCore
  rw [List.map_map]
  exact List.map_congr_left (fun a _ => rfl)

/-- C10: one `executeGraph` call only rewrites `outputValues` (and appends
log lines): the connection collection, both id counters, and the node
collection's length, order, ids, types and configs are all exactly the same
before and after the call. -/
theorem executeGraph_frame (s : EditorState) :
    (executeGraph s).connections = s.connections ∧
    (executeGraph s).nodes.map nodeCore = s.nodes.map nodeCore ∧
    (executeGraph s).nodeIdCounter = s.nodeIdCounter ∧
    (executeGraph s).connectionIdCounter = s.connectionIdCounter :=
  ⟨rfl, executeGraph_nodeCore s, rfl, rfl⟩

/-- Rebuild a freshly-reset node from its core. -/
def rebuildNode (c : ℕ × String × Config) : Node := ⟨c.1, c.2.1, c.2.2, []⟩

theorem reset_map_congr {l1 l2 : List Node} (h : l1.map nodeCore = l2.map nodeCore) :
    l1.map Node.reset = l2.map Node.reset := by
  have h1 : l1.map Node.reset = (l1.map nodeCore).map rebuildNode := by
    rw [List.map_map]
    exact List.map_congr_left (fun a _ => rfl)
  have h2 : l2.map Node.reset = (l2.map nodeCore).map rebuildNode := by
    rw [List.map_map]
    exact List.map_congr_left (fun a _ => rfl)
  rw [h1, h2, h]

theorem ids_map_congr {l1 l2 : List Node} (h : l1.map nodeCore = l2.map nodeCore) :
    l1.map Node.id = l2.map Node.id := by
  have h1 : l1.map Node.id = (l1.map nodeCore).map (fun c => c.1) := by
    rw [List.map_map]
    exact List.map_congr_left (fun a _ => rfl)
  have h2 : l2.map Node.id = (l2.map nodeCore).map (fun c => c.1) := by
    rw [List.map_map]
    exact List.map_congr_left (fun a _ => rfl)
  rw [h1, h2, h]

/-- The run of `executeGraph` depends only on the node cores and the
connections (the reset wipes all previous `outputValues`). -/
theorem execRun_congr {s t : EditorState}
    (hn : s.nodes.map nodeCore = t.nodes.map nodeCore)
    (hc : s.connections = t.connections) :
    execRun (execBound s) s = execRun (execBound t) t := by
  unfold execRun execBound univIds initSt
  rw [reset_map_congr hn, ids_map_congr hn, hc]

/-- C7: running `executeGraph` twice in a row, with no mutation of the nodes,
connections or configs in between, yields identical `outputValues` on every
node after each of the two calls. -/
theorem executeGraph_idempotent (s : EditorState) :
    (executeGraph (executeGraph s)).nodes.map (fun nd => (nd.id, nd.outputValues)) =
      (executeGraph s).nodes.map (fun nd => (nd.id, nd.outputValues)) := by
  have h : execRun (execBound (executeGraph s)) (executeGraph s) = execRun (execBound s) s :=
    execRun_congr (executeGraph_nodeCore s) rfl
  show (execRun (execBound (executeGraph s)) (executeGraph s)).nodes.map _ = _
  rw [h]
  rfl

end NodeGraph
